import Mathlib

/-!
Verification development for the cudants affine-registration core
(`cudants/registration/affine.py` and `cudants/utils/imageutils.py`).

The Python code is shallowly embedded:
* tensors become total functions from integer index lists (or `Fin`-indexed
  functions) into `ℚ` (exact rational arithmetic stands in for floating point;
  the special values `inf`/`nan` that appear in the convergence state are
  modelled explicitly with `Option`, following IEEE-754/Python semantics,
  which are documented at each site);
* the homogeneous-coordinate matrix algebra of the sampling pipeline uses
  `Matrix (Fin (d+1)) (Fin (d+1)) ℚ` and `Matrix.mulVec`, which is exactly the
  einsum contraction pattern used in the source;
* fallible code (Python exceptions) returns `Except`;
* external oracles (the differentiable loss, the optimizer step, the moved
  image produced by the resampler) are universally quantified functions.

Definitions are translated from the source; the handful of definitions for
repository code that is imported but not present under `src/`
(`gaussian_1d`/`separable_filtering` from `cudants.losses.cc`, the
`AbstractRegistration` constructor, the `MIN_IMG_SIZE` global) are modelled
from the specification and say so in their doc comments.
-/

namespace CudAnts

/-! ## Coordinate pipeline (affine.py lines 55, 66-81)

A single grid point of the per-scale normalized sampling grid
(`fixed_image_coords`, produced by `F.affine_grid` from an identity matrix) is
a vector `x : Fin d → ℚ`.  The einsum contraction (pattern ntd, n...d to n...t) applies, for each
batch item `n` and each grid point independently, the matrix-vector product
`Matrix.mulVec`; batching and the spatial extent of the grid are therefore
quantified away and each theorem speaks about one grid point of one batch
item. -/

/-- Line 67: `torch.cat([fixed_image_coords, torch.ones(...)], dim=-1)` —
append a constant homogeneous coordinate 1 to a grid point. -/
def homogenize (d : ℕ) (x : Fin d → ℚ) : Fin (d + 1) → ℚ :=
  Fin.snoc x 1

/-- Line 81: `coords[..., :-1]` — drop the homogeneous coordinate, keeping the
first `d` components. -/
def dropHomogeneous (d : ℕ) (v : Fin (d + 1) → ℚ) : Fin d → ℚ :=
  fun i => v i.castSucc

/-- Line 68: the per-scale precomputation
`fixed_image_coords_homo` is the einsum of `fixed_t2p` with the grid —
the homogenized grid point mapped by the fixed-image normalized-to-physical
transform. -/
def fixedCoordsHomo (d : ℕ) (fixed_t2p : Matrix (Fin (d + 1)) (Fin (d + 1)) ℚ)
    (x : Fin d → ℚ) : Fin (d + 1) → ℚ :=
  fixed_t2p.mulVec (homogenize d x)

/-- Lines 75-81: the per-iteration computation handed to `F.grid_sample` —
apply the current affine matrix, then the moving-image physical-to-normalized
transform, then drop the homogeneous coordinate. -/
def iterationSampleCoords (d : ℕ)
    (fixed_t2p affinemat moving_p2t : Matrix (Fin (d + 1)) (Fin (d + 1)) ℚ)
    (x : Fin d → ℚ) : Fin d → ℚ :=
  dropHomogeneous d (moving_p2t.mulVec (affinemat.mulVec (fixedCoordsHomo d fixed_t2p x)))

/-- The composition claimed by the specification: the single matrix
`moving_p2t · affine · fixed_t2p` applied to the homogenized grid point,
truncated to the first `d` components. -/
def composedSampleCoords (d : ℕ)
    (fixed_t2p affinemat moving_p2t : Matrix (Fin (d + 1)) (Fin (d + 1)) ℚ)
    (x : Fin d → ℚ) : Fin d → ℚ :=
  dropHomogeneous d ((moving_p2t * affinemat * fixed_t2p).mulVec (homogenize d x))

/-- C1: in every iteration, the sampling coordinates handed to the resampler
equal `moving_p2t · affine · fixed_t2p` applied to the homogenized grid point,
truncated to the first `dims` components, in exactly that composition order. -/
theorem c1_sampling_coords_composition (d : ℕ)
    (fixed_t2p affinemat moving_p2t : Matrix (Fin (d + 1)) (Fin (d + 1)) ℚ)
    (x : Fin d → ℚ) :
    iterationSampleCoords d fixed_t2p affinemat moving_p2t x =
      composedSampleCoords d fixed_t2p affinemat moving_p2t x := by
  unfold iterationSampleCoords composedSampleCoords fixedCoordsHomo
  rw [Matrix.mulVec_mulVec, Matrix.mulVec_mulVec]

/-! ## The affine parameter store (affine.py lines 32-35 and 44-45) -/

/-- Lines 34-35: `self.row = torch.zeros((N, 1, dims+1)); self.row[:, 0, -1] = 1.0`
— the fixed homogeneous identity row `[0, ..., 0, 1]`. -/
def homoRow (d : ℕ) : Fin (d + 1) → ℚ :=
  fun j => if j = Fin.last d then 1 else 0

/-- Lines 44-45: `get_affine_matrix` returns
`torch.cat([self.affine, self.row], dim=1)` — the optimizable
`[dims, dims+1]` block with the fixed homogeneous row appended, giving a
`[dims+1, dims+1]` matrix.  `aff` is the current value of the optimizable
parameter block for one batch item (arbitrary, since the optimizer may have
mutated it in any way). -/
def getAffineMatrix (d : ℕ) (aff : Fin d → Fin (d + 1) → ℚ) :
    Matrix (Fin (d + 1)) (Fin (d + 1)) ℚ :=
  Fin.snoc aff (homoRow d)

/-- C6: for every read, at any parameter value the optimizer may have produced
(and for every batch item, since the concatenation acts batch-pointwise), the
matrix returned by `get_affine_matrix` is `[dims+1, dims+1]` (by its type),
its last row is exactly the homogeneous identity row `[0, ..., 0, 1]`, the
remaining rows are exactly the optimizable parameter block, and the appended
row itself has a 1 in its last entry and 0 everywhere else — it is recomputed
from the constant `homoRow`, never derived from the parameters. -/
theorem c6_affine_matrix_last_row (d : ℕ) (aff : Fin d → Fin (d + 1) → ℚ) :
    getAffineMatrix d aff (Fin.last d) = homoRow d ∧
    (∀ i : Fin d, getAffineMatrix d aff i.castSucc = aff i) ∧
    homoRow d (Fin.last d) = 1 ∧
    (∀ j : Fin d, homoRow d j.castSucc = 0) := by
  refine ⟨Fin.snoc_last _ _, fun i => Fin.snoc_castSucc _ _ _, ?_, fun j => ?_⟩
  · simp [homoRow]
  · simp [homoRow, Fin.ext_iff]
    omega

/-! ## Per-scale target size (affine.py line 64)

`MIN_IMG_SIZE` comes from `cudants.utils.globals`, which is not under `src/`;
its numeric value is therefore kept as a universally quantified parameter
`minSize` — every statement below holds for every value of the constant. -/

/-- Line 64: `size_down = [max(int(s / scale), MIN_IMG_SIZE) for s in fixed_size]`.
`int(s / scale)` on nonnegative ints is floor division, i.e. `Nat` division. -/
def sizeDown (minSize scale : ℕ) (fixedSize : List ℕ) : List ℕ :=
  fixedSize.map (fun s => max (s / scale) minSize)

/-- C10: every per-scale target axis length equals
`max (⌊s / scale⌋) MIN_IMG_SIZE`, hence is bounded below by `MIN_IMG_SIZE`;
and whenever `⌊s / scale⌋ < MIN_IMG_SIZE` (a sufficiently large factor), the
effective per-axis downsampling factor `s / size_down` is strictly smaller
than the requested `scale`. -/
theorem c10_min_img_size_bound (minSize scale : ℕ) (fixedSize : List ℕ) (s : ℕ)
    (hscale : 0 < scale) (hmin : 0 < minSize) :
    (∀ t ∈ sizeDown minSize scale fixedSize, minSize ≤ t) ∧
    (s ∈ fixedSize → (max (s / scale) minSize) ∈ sizeDown minSize scale fixedSize) ∧
    (s / scale < minSize → (s : ℚ) / (max (s / scale) minSize : ℕ) < scale) := by
  refine ⟨?_, ?_, ?_⟩
  · intro t ht
    rcases List.mem_map.mp ht with ⟨a, _, rfl⟩
    exact le_max_right _ _
  · intro hs
    exact List.mem_map.mpr ⟨s, hs, rfl⟩
  · intro hlt
    have hmax : max (s / scale) minSize = minSize := max_eq_right (le_of_lt hlt)
    rw [hmax]
    rw [div_lt_iff₀ (by exact_mod_cast hmin)]
    have hs : s < minSize * scale := (Nat.div_lt_iff_lt_mul hscale).mp hlt
    rw [mul_comm]
    exact_mod_cast hs

theorem c10_min_img_size_bound_witness :
    (∀ t ∈ sizeDown 32 8 [100, 60], 32 ≤ t) ∧
    (100 ∈ [100, 60] → (max (100 / 8) 32) ∈ sizeDown 32 8 [100, 60]) ∧
    (100 / 8 < 32 → (100 : ℚ) / (max (100 / 8) 32 : ℕ) < 8) :=
  c10_min_img_size_bound 32 8 [100, 60] 100 (by decide) (by decide)

/-! ## Construction-time validation (affine.py lines 14-42) -/

/-- Configuration errors raised at construction time. -/
inductive ConfigErr where
  | mismatchedLengths
  | badOptimizerName
  deriving DecidableEq, Repr

/-- Recognized optimizer selectors (affine.py lines 37-42). -/
inductive OptimizerName where
  | sgd
  | adam
  | other
  deriving DecidableEq, Repr

/-- Modelled from the spec: `AbstractRegistration.__init__`
(`cudants/registration/abstract.py`, not under `src/`) receives the scale
schedule first, and per §3 ("Invariant: sequence lengths of factors and
iteration budgets are equal; violating this is a configuration error") and §7
("ConfigurationError (... mismatched schedule lengths ...) — raised eagerly at
construction, never during iteration") it validates that `scales` and
`iterations` have equal lengths, failing eagerly otherwise. -/
def abstractRegistrationInit (scales iterations : List ℕ) :
    Except ConfigErr (List ℕ × List ℕ) :=
  if scales.length = iterations.length then .ok (scales, iterations)
  else .error .mismatchedLengths

/-- Lines 14-42: `AffineRegistration.__init__` — calls the abstract
constructor (which validates the schedule) and then validates the optimizer
name (lines 37-42); only a successfully constructed object can later run
`optimize`. -/
def affineRegistrationInit (scales iterations : List ℕ) (opt : OptimizerName) :
    Except ConfigErr (List ℕ × List ℕ) := do
  let sched ← abstractRegistrationInit scales iterations
  match opt with
  | .sgd => .ok sched
  | .adam => .ok sched
  | .other => .error .badOptimizerName

/-- C7: a scales/iterations length mismatch raises a configuration error
eagerly at construction, before any iteration can run, and a successful
construction returns the two schedules verbatim and equal in length — the
mismatch is never silently coerced by truncation. -/
theorem c7_schedule_length_validation (scales iterations : List ℕ)
    (opt : OptimizerName) :
    (scales.length ≠ iterations.length →
      affineRegistrationInit scales iterations opt = .error .mismatchedLengths) ∧
    (∀ sched, affineRegistrationInit scales iterations opt = .ok sched →
      sched.1 = scales ∧ sched.2 = iterations ∧ sched.1.length = sched.2.length) := by
  constructor
  · intro hne
    have habs : abstractRegistrationInit scales iterations = .error .mismatchedLengths := by
      unfold abstractRegistrationInit
      simp [hne]
    unfold affineRegistrationInit
    rw [habs]
    rfl
  · intro sched hok
    by_cases heq : scales.length = iterations.length
    · have habs : abstractRegistrationInit scales iterations = .ok (scales, iterations) := by
        unfold abstractRegistrationInit
        simp [heq]
      unfold affineRegistrationInit at hok
      rw [habs] at hok
      cases opt with
      | sgd =>
          have : (scales, iterations) = sched := by
            exact Except.ok.inj hok
          subst this
          exact ⟨rfl, rfl, heq⟩
      | adam =>
          have : (scales, iterations) = sched := by
            exact Except.ok.inj hok
          subst this
          exact ⟨rfl, rfl, heq⟩
      | other =>
          exact absurd hok (by simp [Bind.bind, Except.bind])
    · have habs : abstractRegistrationInit scales iterations = .error .mismatchedLengths := by
        unfold abstractRegistrationInit
        simp [heq]
      unfold affineRegistrationInit at hok
      rw [habs] at hok
      exact absurd hok (by simp [Bind.bind, Except.bind])

theorem c7_schedule_length_validation_witness :
    affineRegistrationInit [8, 4] [100] .sgd = .error .mismatchedLengths :=
  (c7_schedule_length_validation [8, 4] [100] .sgd).1 (by decide)

/-! ## Convergence policy (affine.py lines 60-103)

Loss values produced by `loss.item()` are Python floats; the previous-loss
variable is initialized to `np.inf` (a Python float infinity).  We model a
finite loss as `ℚ` and the previous-loss variable as `Option ℚ`, with `none`
standing for the initial `+inf`.  Python float semantics at the special
values, reflected below:
* `atol` with `prev = inf`: `inf - cur = inf`, and `inf < tolerance` is false
  for every float tolerance, so the test is false;
* `rtol` with `prev = inf`: `(inf - cur) / inf = nan`, and `nan < tolerance`
  is false, so the test is false;
* `rtol` with `prev = 0.0`: Python float division by zero raises
  `ZeroDivisionError` (plain-float division, not a silent IEEE `nan`/`inf`). -/

/-- The `tolerance_mode` selector (`atol` / `rtol`). -/
inductive TolMode where
  | atol
  | rtol
  deriving DecidableEq, Repr

/-- Runtime errors that can escape the optimization loop. -/
inductive RunErr where
  | zeroDivisionErr
  | movedImageUnbound
  deriving DecidableEq, Repr

/-- Lines 88-101: one evaluation of the convergence test, given the previous
loss (`none` = the initial `+inf`) and the current loss.  In `rtol` mode a
previous loss of exactly `0` raises `ZeroDivisionError`. -/
def convTest (mode : TolMode) (tol : ℚ) (prev : Option ℚ) (cur : ℚ) :
    Except RunErr Bool :=
  match mode, prev with
  | .atol, none => .ok false
  | .atol, some p => .ok (decide (p - cur < tol))
  | .rtol, none => .ok false
  | .rtol, some p =>
      if p = 0 then .error .zeroDivisionErr
      else .ok (decide ((p - cur) / p < tol))

/-- The convergence test totalized for specification purposes: identical to
`convTest` wherever that one returns a value (the `rtol`-at-zero case is
given the junk value `false`, and is unused under the hypotheses of the
theorems that mention `tbTest`). -/
def tbTest (mode : TolMode) (tol : ℚ) (prev : Option ℚ) (cur : ℚ) : Bool :=
  match mode, prev with
  | _, none => false
  | .atol, some p => decide (p - cur < tol)
  | .rtol, some p => if p = 0 then false else decide ((p - cur) / p < tol)

/-- The per-scale convergence state: the non-improvement counter `tol_ctr`
and the previous loss `prev_loss` (line 61-62: reset to `0` / `inf` at the
start of every scale). -/
structure ScaleState where
  ctr : ℕ
  prev : Option ℚ
  deriving DecidableEq, Repr

/-- Lines 72-103: the inner iteration loop at one scale.  `losses k` is the
value `loss.item()` observed on (0-based) iteration `k` — the loss, the
resampling and the optimizer step are external oracles, so the observed loss
sequence is an arbitrary function.  `i` is the current iteration index,
`fuel` the remaining budget.  Following the source: if the test is true the
counter is incremented and, when it exceeds `max_tolerance_iters`, the loop
breaks (without updating `prev_loss`); otherwise the counter resets to 0; in
both non-breaking cases `prev_loss = cur_loss` before the next iteration.
The result is the number of iterations executed. -/
def innerLoop (mode : TolMode) (tol : ℚ) (maxIt : ℕ) (losses : ℕ → ℚ) :
    ℕ → ℕ → ScaleState → Except RunErr ℕ
  | i, 0, _ => .ok i
  | i, fuel + 1, st =>
      match convTest mode tol st.prev (losses i) with
      | .error e => .error e
      | .ok b =>
          if b then
            if maxIt < st.ctr + 1 then .ok (i + 1)
            else innerLoop mode tol maxIt losses (i + 1) fuel ⟨st.ctr + 1, some (losses i)⟩
          else innerLoop mode tol maxIt losses (i + 1) fuel ⟨0, some (losses i)⟩

/-- One scale of the loop, started (lines 61-62) with counter `0` and
previous loss `+inf`, with iteration budget `iters`. -/
def runScale (mode : TolMode) (tol : ℚ) (maxIt : ℕ) (losses : ℕ → ℚ)
    (iters : ℕ) : Except RunErr ℕ :=
  innerLoop mode tol maxIt losses 0 iters ⟨0, none⟩

/-- The previous-loss value seen at the start of (0-based) iteration `k` of a
scale whose observed losses are `losses`: `+inf` (`none`) on the first
iteration, the preceding loss afterwards. -/
def prevAt (losses : ℕ → ℚ) : ℕ → Option ℚ
  | 0 => none
  | k + 1 => some (losses k)

/-- The non-improvement counter after `k` iterations: starts at 0, is
incremented exactly on iterations whose improvement is below tolerance and
reset to 0 otherwise. -/
def ctrAt (mode : TolMode) (tol : ℚ) (losses : ℕ → ℚ) : ℕ → ℕ
  | 0 => 0
  | k + 1 =>
      if tbTest mode tol (prevAt losses k) (losses k) then
        ctrAt mode tol losses k + 1
      else 0

/-- The first iteration index `k` (searching `fuel` indices starting at `i`)
on which the just-incremented counter exceeds `max_tolerance_iters`, i.e. on
which the loop breaks. -/
def firstStop (mode : TolMode) (tol : ℚ) (maxIt : ℕ) (losses : ℕ → ℚ) :
    ℕ → ℕ → Option ℕ
  | _, 0 => none
  | i, fuel + 1 =>
      if maxIt < ctrAt mode tol losses (i + 1) then some i
      else firstStop mode tol maxIt losses (i + 1) fuel

/-- The number of iterations a scale with budget `iters` executes: up to and
including the first breaking iteration, or the whole budget if none breaks. -/
def specExec (mode : TolMode) (tol : ℚ) (maxIt : ℕ) (losses : ℕ → ℚ)
    (iters : ℕ) : ℕ :=
  match firstStop mode tol maxIt losses 0 iters with
  | some k => k + 1
  | none => iters

theorem tbTest_prev_inf (mode : TolMode) (tol cur : ℚ) :
    tbTest mode tol none cur = false := by
  cases mode <;> rfl

theorem ctrAt_one (mode : TolMode) (tol : ℚ) (losses : ℕ → ℚ) :
    ctrAt mode tol losses 1 = 0 := by
  show ctrAt mode tol losses (0 + 1) = 0
  rw [ctrAt]
  simp [prevAt, tbTest_prev_inf]

theorem innerLoop_eq_spec (mode : TolMode) (tol : ℚ) (maxIt : ℕ)
    (losses : ℕ → ℚ)
    (H : ∀ k, convTest mode tol (prevAt losses k) (losses k) =
      .ok (tbTest mode tol (prevAt losses k) (losses k))) :
    ∀ fuel i,
      innerLoop mode tol maxIt losses i fuel
          ⟨ctrAt mode tol losses i, prevAt losses i⟩ =
        .ok (match firstStop mode tol maxIt losses i fuel with
              | some k => k + 1
              | none => i + fuel) := by
  intro fuel
  induction fuel with
  | zero =>
      intro i
      simp [innerLoop, firstStop]
  | succ fuel ih =>
      intro i
      rw [innerLoop, H i, firstStop]
      by_cases hb : tbTest mode tol (prevAt losses i) (losses i)
      · have hctr : ctrAt mode tol losses (i + 1) = ctrAt mode tol losses i + 1 := by
          rw [ctrAt, if_pos hb]
        by_cases hbr : maxIt < ctrAt mode tol losses (i + 1)
        · have hbr2 : maxIt < ctrAt mode tol losses i + 1 := by
            rw [← hctr]
            exact hbr
          simp only [hb, if_pos hbr2, if_pos hbr, if_true]
        · have hbr2 : ¬ maxIt < ctrAt mode tol losses i + 1 := by
            rw [← hctr]
            exact hbr
          have ih2 := ih (i + 1)
          rw [show prevAt losses (i + 1) = some (losses i) from rfl, hctr] at ih2
          simp only [hb, if_neg hbr2, if_neg hbr, if_true, ih2]
          cases hfs : firstStop mode tol maxIt losses (i + 1) fuel with
          | some k => rfl
          | none =>
              dsimp only
              have h12 : i + 1 + fuel = i + (fuel + 1) := by omega
              rw [h12]
      · have hctr : ctrAt mode tol losses (i + 1) = 0 := by
          rw [ctrAt, if_neg hb]
        have hbr : ¬ maxIt < ctrAt mode tol losses (i + 1) := by
          rw [hctr]
          exact Nat.not_lt_zero _
        have ih2 := ih (i + 1)
        rw [show prevAt losses (i + 1) = some (losses i) from rfl, hctr] at ih2
        rw [Bool.not_eq_true] at hb
        simp only [hb, if_neg hbr, Bool.false_eq_true, if_false, ih2]
        cases hfs : firstStop mode tol maxIt losses (i + 1) fuel with
        | some k => rfl
        | none =>
            dsimp only
            have h12 : i + 1 + fuel = i + (fuel + 1) := by omega
            rw [h12]

theorem firstStop_spec_some (mode : TolMode) (tol : ℚ) (maxIt : ℕ)
    (losses : ℕ → ℚ) :
    ∀ fuel i k, firstStop mode tol maxIt losses i fuel = some k →
      i ≤ k ∧ k < i + fuel ∧ maxIt < ctrAt mode tol losses (k + 1) ∧
      ∀ j, i ≤ j → j < k → ¬ maxIt < ctrAt mode tol losses (j + 1) := by
  intro fuel
  induction fuel with
  | zero =>
      intro i k h
      exact absurd h (by simp [firstStop])
  | succ fuel ih =>
      intro i k h
      rw [firstStop] at h
      by_cases hc : maxIt < ctrAt mode tol losses (i + 1)
      · rw [if_pos hc] at h
        obtain rfl : i = k := Option.some.inj h
        exact ⟨le_refl _, by omega, hc, fun j hij hjk => by omega⟩
      · rw [if_neg hc] at h
        obtain ⟨h1, h2, h3, h4⟩ := ih (i + 1) k h
        refine ⟨by omega, by omega, h3, fun j hij hjk => ?_⟩
        rcases Nat.eq_or_lt_of_le hij with rfl | hlt
        · exact hc
        · exact h4 j hlt hjk

theorem firstStop_spec_none (mode : TolMode) (tol : ℚ) (maxIt : ℕ)
    (losses : ℕ → ℚ) :
    ∀ fuel i, firstStop mode tol maxIt losses i fuel = none →
      ∀ k, i ≤ k → k < i + fuel → ¬ maxIt < ctrAt mode tol losses (k + 1) := by
  intro fuel
  induction fuel with
  | zero =>
      intro i _ k h1 h2
      omega
  | succ fuel ih =>
      intro i h k h1 h2
      rw [firstStop] at h
      by_cases hc : maxIt < ctrAt mode tol losses (i + 1)
      · rw [if_pos hc] at h
        exact absurd h (by simp)
      · rw [if_neg hc] at h
        rcases Nat.eq_or_lt_of_le h1 with rfl | hlt
        · exact hc
        · exact ih (i + 1) h k hlt (by omega)

theorem convTest_eq_tbTest (mode : TolMode) (tol : ℚ) (losses : ℕ → ℚ)
    (h : mode = .atol ∨ ∀ k, losses k ≠ 0) (k : ℕ) :
    convTest mode tol (prevAt losses k) (losses k) =
      .ok (tbTest mode tol (prevAt losses k) (losses k)) := by
  cases k with
  | zero => cases mode <;> rfl
  | succ k =>
      rcases h with rfl | hnz
      · rfl
      · show convTest mode tol (some (losses k)) (losses (k + 1)) = _
        cases mode with
        | atol => rfl
        | rtol =>
            show (if losses k = 0 then _ else _) = _
            rw [if_neg (hnz k)]
            show _ = Except.ok (if losses k = 0 then false else _)
            rw [if_neg (hnz k)]

/-- C4: at every scale the counter starts at 0 with previous loss `+inf`; the
counter after iteration `k` is incremented exactly when the improvement
(`prev - cur`, divided by `prev` in `rtol` mode) is below the tolerance and
reset to 0 otherwise; the scale executes exactly up to the first iteration on
which the just-incremented counter exceeds `max_tolerance_iters`, and the
whole budget when no such iteration exists; and the test is false on the
first iteration of every scale (previous loss `+inf`), so a stop can never
trigger there.  The `rtol` part assumes no observed loss is exactly 0 (that
case raises instead; see the C5 theorem). -/
theorem c4_convergence_counter (mode : TolMode) (tol : ℚ) (maxIt iters : ℕ)
    (losses : ℕ → ℚ) (h : mode = .atol ∨ ∀ k, losses k ≠ 0) :
    runScale mode tol maxIt losses iters =
      .ok (specExec mode tol maxIt losses iters) ∧
    ctrAt mode tol losses 0 = 0 ∧ prevAt losses 0 = none ∧
    (∀ k, ctrAt mode tol losses (k + 1) =
      if tbTest mode tol (prevAt losses k) (losses k) then
        ctrAt mode tol losses k + 1
      else 0) ∧
    (∀ cur, tbTest mode tol none cur = false) ∧
    (∀ k, firstStop mode tol maxIt losses 0 iters = some k →
      specExec mode tol maxIt losses iters = k + 1 ∧ k < iters ∧
      maxIt < ctrAt mode tol losses (k + 1) ∧
      ∀ j, j < k → ¬ maxIt < ctrAt mode tol losses (j + 1)) ∧
    (firstStop mode tol maxIt losses 0 iters = none →
      specExec mode tol maxIt losses iters = iters ∧
      ∀ k, k < iters → ¬ maxIt < ctrAt mode tol losses (k + 1)) ∧
    firstStop mode tol maxIt losses 0 iters ≠ some 0 := by
  have hrun : runScale mode tol maxIt losses iters =
      .ok (specExec mode tol maxIt losses iters) := by
    have h0 : (⟨0, none⟩ : ScaleState) =
        ⟨ctrAt mode tol losses 0, prevAt losses 0⟩ := rfl
    unfold runScale specExec
    rw [h0, innerLoop_eq_spec mode tol maxIt losses (convTest_eq_tbTest mode tol losses h)]
    cases hfs : firstStop mode tol maxIt losses 0 iters with
    | some k => rfl
    | none =>
        dsimp only
        rw [Nat.zero_add]
  refine ⟨hrun, rfl, rfl, fun k => by rw [ctrAt], tbTest_prev_inf mode tol, ?_, ?_, ?_⟩
  · intro k hk
    obtain ⟨_, h2, h3, h4⟩ := firstStop_spec_some mode tol maxIt losses iters 0 k hk
    exact ⟨by unfold specExec; rw [hk], by omega, h3, fun j hj => h4 j (Nat.zero_le _) hj⟩
  · intro hk
    exact ⟨by unfold specExec; rw [hk], fun k hklt =>
      firstStop_spec_none mode tol maxIt losses iters 0 hk k (Nat.zero_le _) (by omega)⟩
  · intro hk
    obtain ⟨_, _, h3, _⟩ := firstStop_spec_some mode tol maxIt losses iters 0 0 hk
    rw [ctrAt_one] at h3
    exact Nat.not_lt_zero _ h3

theorem c4_convergence_counter_witness :
    runScale .atol 0 10 (fun _ => 0) 3 =
      .ok (specExec .atol 0 10 (fun _ => 0) 3) :=
  (c4_convergence_counter .atol 0 10 3 (fun _ => 0) (Or.inl rfl)).1

/-- C5: in `rtol` mode, a previous loss of exactly 0 makes the convergence
test raise `ZeroDivisionError` (Python float division by zero), a
well-defined numeric error, instead of feeding a silent `NaN`/`Inf` into the
convergence decision — and the error propagates out of the scale loop: any
scale whose first observed loss is 0 and whose budget allows a second
iteration terminates with that error. -/
theorem c5_rtol_zero_division (tol : ℚ) :
    (∀ cur, convTest .rtol tol (some 0) cur = .error .zeroDivisionErr) ∧
    (∀ maxIt iters (losses : ℕ → ℚ), losses 0 = 0 → 2 ≤ iters →
      runScale .rtol tol maxIt losses iters = .error .zeroDivisionErr) := by
  constructor
  · intro cur
    rfl
  · intro maxIt iters losses h0 h2
    obtain ⟨n, rfl⟩ : ∃ n, iters = n + 2 := ⟨iters - 2, by omega⟩
    show innerLoop .rtol tol maxIt losses 0 (n + 1 + 1) ⟨0, none⟩ = _
    rw [innerLoop]
    show (match convTest .rtol tol none (losses 0) with
          | .error e => Except.error e
          | .ok b => _) = _
    have hc0 : convTest .rtol tol none (losses 0) = .ok false := rfl
    rw [hc0]
    show innerLoop .rtol tol maxIt losses 1 (n + 1) ⟨0, some (losses 0)⟩ = _
    rw [innerLoop]
    have hc1 : convTest .rtol tol (some (losses 0)) (losses 1) =
        .error .zeroDivisionErr := by
      rw [h0]
      rfl
    rw [hc1]

theorem c5_rtol_zero_division_witness :
    runScale .rtol 0 10 (fun _ => 0) 2 = .error .zeroDivisionErr :=
  (c5_rtol_zero_division 0).2 10 2 (fun _ => 0) rfl (by decide)

/-! ## The `optimize` driver (affine.py lines 47-108)

The outer loop runs over `zip(self.scales, self.iterations)`.  The values of
the loss (`loss.item()`, oracle `losses scaleIdx iter`) and of the resampled
moving image (`moved_image`, oracle `moved scaleIdx iter`, an opaque tensor of
type `μ`) are external: they depend on the loss module, the resampler and the
optimizer step, all outside the control flow of the loop.  `moved_image` is a
Python local that persists across scales; reading it before any iteration has
ever assigned it raises `NameError` (`movedImageUnbound`).  The function
returns `transformed_images` when `save_transformed` is true and (implicitly)
`None` otherwise — the affine matrix is not part of the return value; it
lives in the mutable parameter store (`self.affine`, read through
`get_affine_matrix`). -/

/-- Lines 57-108 — the scale loop.  `sched` is the remaining
`zip(scales, iterations)` list, `sIdx` the index of the current scale in the
oracles, `mv` the current value of the `moved_image` local (none = unbound),
`acc` the accumulated `transformed_images` (reversed). -/
def optimizeGo {μ : Type} (mode : TolMode) (tol : ℚ) (maxIt : ℕ)
    (losses : ℕ → ℕ → ℚ) (moved : ℕ → ℕ → μ) (save : Bool) :
    List (ℕ × ℕ) → ℕ → Option μ → List μ → Except RunErr (Option (List μ))
  | [], _, _, acc => if save then .ok (some acc.reverse) else .ok none
  | (_, iters) :: rest, sIdx, mv, acc =>
      match runScale mode tol maxIt (losses sIdx) iters with
      | .error e => .error e
      | .ok exec =>
          let mv2 := if exec = 0 then mv else some (moved sIdx (exec - 1))
          if save then
            match mv2 with
            | none => .error .movedImageUnbound
            | some m => optimizeGo mode tol maxIt losses moved save rest (sIdx + 1) mv2 (m :: acc)
          else optimizeGo mode tol maxIt losses moved save rest (sIdx + 1) mv2 acc

/-- Lines 47-108: `optimize(self, save_transformed=False)`. -/
def optimize {μ : Type} (scales iterations : List ℕ) (mode : TolMode)
    (tol : ℚ) (maxIt : ℕ) (losses : ℕ → ℕ → ℚ) (moved : ℕ → ℕ → μ)
    (save : Bool) : Except RunErr (Option (List μ)) :=
  optimizeGo mode tol maxIt losses moved save (scales.zip iterations) 0 none []

theorem runScale_eq_specExec (mode : TolMode) (tol : ℚ) (maxIt iters : ℕ)
    (losses : ℕ → ℚ) (h : mode = .atol ∨ ∀ k, losses k ≠ 0) :
    runScale mode tol maxIt losses iters =
      .ok (specExec mode tol maxIt losses iters) := by
  have h0 : (⟨0, none⟩ : ScaleState) =
      ⟨ctrAt mode tol losses 0, prevAt losses 0⟩ := rfl
  unfold runScale specExec
  rw [h0, innerLoop_eq_spec mode tol maxIt losses (convTest_eq_tbTest mode tol losses h)]
  cases hfs : firstStop mode tol maxIt losses 0 iters with
  | some k => rfl
  | none =>
      dsimp only
      rw [Nat.zero_add]

theorem one_le_specExec (mode : TolMode) (tol : ℚ) (maxIt iters : ℕ)
    (losses : ℕ → ℚ) (h : 1 ≤ iters) :
    1 ≤ specExec mode tol maxIt losses iters := by
  unfold specExec
  split
  · omega
  · exact h

theorem optimizeGo_false_none {μ : Type} (mode : TolMode) (tol : ℚ)
    (maxIt : ℕ) (losses : ℕ → ℕ → ℚ) (moved : ℕ → ℕ → μ)
    (hmode : mode = .atol ∨ ∀ s k, losses s k ≠ 0) :
    ∀ (sched : List (ℕ × ℕ)) (sIdx : ℕ) (mv : Option μ) (acc : List μ),
      optimizeGo mode tol maxIt losses moved false sched sIdx mv acc = .ok none := by
  intro sched
  induction sched with
  | nil =>
      intro sIdx mv acc
      simp [optimizeGo]
  | cons p rest ih =>
      intro sIdx mv acc
      obtain ⟨scale, iters⟩ := p
      have hrun := runScale_eq_specExec mode tol maxIt iters (losses sIdx)
        (by rcases hmode with h | h
            · exact Or.inl h
            · exact Or.inr (h sIdx))
      rw [optimizeGo, hrun]
      dsimp only
      rw [if_neg (by simp)]
      exact ih (sIdx + 1) _ _

theorem optimizeGo_true_length {μ : Type} (mode : TolMode) (tol : ℚ)
    (maxIt : ℕ) (losses : ℕ → ℕ → ℚ) (moved : ℕ → ℕ → μ)
    (hmode : mode = .atol ∨ ∀ s k, losses s k ≠ 0) :
    ∀ (sched : List (ℕ × ℕ)), (∀ p ∈ sched, 1 ≤ p.2) →
      ∀ (sIdx : ℕ) (mv : Option μ) (acc : List μ),
        ∃ out, optimizeGo mode tol maxIt losses moved true sched sIdx mv acc =
          .ok (some out) ∧ out.length = acc.length + sched.length := by
  intro sched
  induction sched with
  | nil =>
      intro _ sIdx mv acc
      exact ⟨acc.reverse, by simp [optimizeGo]⟩
  | cons p rest ih =>
      intro hall sIdx mv acc
      obtain ⟨scale, iters⟩ := p
      have hiters : 1 ≤ iters := hall (scale, iters) (List.mem_cons_self _ _)
      have hrun := runScale_eq_specExec mode tol maxIt iters (losses sIdx)
        (by rcases hmode with h | h
            · exact Or.inl h
            · exact Or.inr (h sIdx))
      have hexec : specExec mode tol maxIt (losses sIdx) iters ≠ 0 := by
        have := one_le_specExec mode tol maxIt iters (losses sIdx) hiters
        omega
      rw [optimizeGo, hrun]
      dsimp only
      rw [if_neg hexec, if_pos rfl]
      obtain ⟨out, hout, hlen⟩ := ih (fun q hq => hall q (List.mem_cons_of_mem _ hq))
        (sIdx + 1) (some (moved sIdx (specExec mode tol maxIt (losses sIdx) iters - 1)))
        (moved sIdx (specExec mode tol maxIt (losses sIdx) iters - 1) :: acc)
      refine ⟨out, hout, ?_⟩
      rw [hlen]
      simp
      omega

/-- C2 (amended): when the scale schedule is exhausted, `optimize` returns
the list of per-scale moved images — one per scale, provided the schedule
lengths match and every scale has a nonzero iteration budget — exactly when
the caller requested intermediate results, and returns nothing (Python
`None`) otherwise.  The final affine matrix is not part of the return value
in either case; it stays in the parameter store and is read through
`get_affine_matrix`.  (The `mode` hypothesis rules out the separate
`rtol`-division-by-zero abort.) -/
theorem c2_optimize_return_value {μ : Type} (scales iterations : List ℕ)
    (mode : TolMode) (tol : ℚ) (maxIt : ℕ) (losses : ℕ → ℕ → ℚ)
    (moved : ℕ → ℕ → μ)
    (hmode : mode = .atol ∨ ∀ s k, losses s k ≠ 0) :
    optimize scales iterations mode tol maxIt losses moved false = .ok none ∧
    (scales.length = iterations.length →
      (∀ p ∈ scales.zip iterations, 1 ≤ p.2) →
      ∃ out, optimize scales iterations mode tol maxIt losses moved true =
        .ok (some out) ∧ out.length = scales.length) := by
  constructor
  · exact optimizeGo_false_none mode tol maxIt losses moved hmode _ 0 none []
  · intro hlen hall
    obtain ⟨out, hout, hlength⟩ := optimizeGo_true_length mode tol maxIt losses moved
      hmode (scales.zip iterations) hall 0 none []
    refine ⟨out, hout, ?_⟩
    rw [hlength]
    simp [List.length_zip, hlen]

theorem c2_optimize_return_value_witness :
    optimize [1] [1] .atol 0 10 (fun _ _ => 0) (fun _ _ => (0 : ℕ)) false = .ok none ∧
    (([1] : List ℕ).length = ([1] : List ℕ).length →
      (∀ p ∈ ([1] : List ℕ).zip [1], 1 ≤ p.2) →
      ∃ out, optimize [1] [1] .atol 0 10 (fun _ _ => 0) (fun _ _ => (0 : ℕ)) true =
        .ok (some out) ∧ out.length = ([1] : List ℕ).length) :=
  c2_optimize_return_value [1] [1] .atol 0 10 (fun _ _ => 0) (fun _ _ => (0 : ℕ))
    (Or.inl rfl)

/-- C2 counterexample to the claim as stated: the claim asserts `optimize`
returns the final affine matrix when the schedule is exhausted.  In the code
the return statement is `return transformed_images` under `save_transformed`
and an implicit `return None` otherwise: on a concrete 1-scale run the
operation returns nothing at all without `save_transformed`, and returns only
the moved-image list with it — in neither case does the return value contain
an affine matrix. -/
theorem c2_optimize_no_affine_in_return :
    optimize [1] [1] .atol 0 10 (fun _ _ => 0) (fun _ _ => (0 : ℕ)) false = .ok none ∧
    optimize [1] [1] .atol 0 10 (fun _ _ => 0) (fun _ _ => (0 : ℕ)) true =
      .ok (some [0]) := by
  constructor
  · rfl
  · rfl

/-! ## Images, interpolation and the pyramid builder

An image tensor `[B, C, *spatial]` is a batch/channel-indexed total function
on integer spatial coordinates, with its shape carried alongside (values at
out-of-shape coordinates are irrelevant junk that no theorem examines). -/

/-- A batched multi-channel image tensor with rational entries. -/
structure ImageTensor where
  B : ℕ
  C : ℕ
  spatial : List ℕ
  data : ℕ → ℕ → List ℤ → ℚ

/-- Linear resampling, `F.interpolate(..., mode=linear/bilinear/trilinear, align_corners=True)`
(an external PyTorch capability used at affine.py line 65 and imageutils.py
line 144): separable corner-aligned linear interpolation from spatial shape
`ss` to spatial shape `ts`, axis by axis.  Output index `j` on an axis of
size `t` reads source position `j * (s - 1) / (t - 1)` (position 0 when the
output axis has a single sample) and blends the two neighbouring samples
with the fractional weight; when the position is exact the second sample has
weight 0. -/
def interpAxes {α : Type} [LinearOrderedField α] [FloorRing α] :
    List ℕ → List ℕ → (List ℤ → α) → List ℤ → α
  | s :: ss, t :: ts, f, j :: js =>
      let pos : α := if t ≤ 1 then 0 else (j : α) * ((s : α) - 1) / ((t : α) - 1)
      let j0 : ℤ := ⌊pos⌋
      let w : α := pos - (j0 : α)
      (1 - w) * interpAxes ss ts (fun is => f (j0 :: is)) js +
        w * interpAxes ss ts (fun is => f ((j0 + 1) :: is)) js
  | _, _, f, c => f c

/-- Affine.py lines 64-65: the per-scale construction of the downsampled
fixed image — `F.interpolate(fixed_arrays, size=size_down, ..., align_corners=True)`
applied directly to the full-resolution fixed image. -/
def scaleFixedImageDown (minSize scale : ℕ) (img : ImageTensor) : ImageTensor :=
  { B := img.B
    C := img.C
    spatial := sizeDown minSize scale img.spatial
    data := fun b c =>
      interpAxes img.spatial (sizeDown minSize scale img.spatial) (img.data b c) }

/-- imageutils.py line 138: the per-axis anti-aliasing sigma
`0.5 * orig_size[i] / size[i]`. -/
def sigmaList (origSize size : List ℕ) : List ℚ :=
  List.zipWith (fun o t => (1 / 2 : ℚ) * (o : ℚ) / (t : ℚ)) origSize size

/-- Modelled from the spec: the truncation radius of the discrete Gaussian
kernel built by `gaussian_1d(s, truncated=2)` (`cudants.losses.cc`, not under
`src/`) — the kernel is "truncated at 2 standard deviations" (§4.2), so its
taps are the integers of absolute value at most `2σ`. -/
def gaussTail (σ : ℚ) : ℤ :=
  ⌊(2 : ℚ) * σ⌋

/-- Modelled from the spec: the normalizing constant of the truncated
discrete Gaussian kernel. -/
noncomputable def gaussZ (σ : ℚ) : ℝ :=
  ∑ d ∈ Finset.Icc (-(gaussTail σ)) (gaussTail σ),
    Real.exp (-((d : ℝ) ^ 2) / (2 * ((σ : ℚ) : ℝ) ^ 2))

/-- Modelled from the spec: `gaussian_1d(s, truncated=2)` from
`cudants.losses.cc` (not under `src/`) — a separable Gaussian kernel built
from sigma, truncated at 2 standard deviations and normalized to unit sum
(§4.2). -/
noncomputable def gaussian_1d (σ : ℚ) (x : ℤ) : ℝ :=
  if x ∈ Finset.Icc (-(gaussTail σ)) (gaussTail σ) then
    Real.exp (-((x : ℝ) ^ 2) / (2 * ((σ : ℚ) : ℝ) ^ 2)) / gaussZ σ
  else 0

/-- Modelled from the spec: `separable_filtering` from `cudants.losses.cc`
(not under `src/`) — "apply separable convolution (smoothing) to the
full-resolution image" (§4.2), one 1-d Gaussian kernel per axis. -/
noncomputable def separable_filtering : List ℚ → (List ℤ → ℝ) → List ℤ → ℝ
  | [], f => f
  | σ :: σs, f => fun c =>
      match c with
      | j :: js =>
          ∑ d ∈ Finset.Icc (-(gaussTail σ)) (gaussTail σ),
            gaussian_1d σ d * separable_filtering σs (fun is => f ((j - d) :: is)) js
      | [] => f []

/-- imageutils.py lines 128-145: `downsample` — infer the per-axis sigma from
the shapes, smooth with the separable Gaussian kernels, then resample to the
target size with corner-aligned interpolation.  (The optional `sigma` /
`gaussians` overrides are omitted: the sigma-inference path is the one the
spec describes for the pyramid.) -/
noncomputable def downsample (origSize size : List ℕ) (f : List ℤ → ℝ) :
    List ℤ → ℝ :=
  interpAxes origSize size (separable_filtering (sigmaList origSize size) f)

/-- The concrete 3×3 single-channel impulse image used to separate the two
downsampling pipelines. -/
def impulseImage : ImageTensor :=
  { B := 1
    C := 1
    spatial := [3, 3]
    data := fun _ _ c => if c = [1, 1] then 1 else 0 }

theorem gaussTail_half : gaussTail (1 / 2) = 1 := by
  unfold gaussTail
  rw [show (2 : ℚ) * (1 / 2) = 1 by norm_num, Int.floor_one]

theorem icc_neg_one_one : Finset.Icc (-1 : ℤ) 1 = {-1, 0, 1} := by
  decide

theorem gaussZ_half : gaussZ (1 / 2) = Real.exp (-2) + (1 + Real.exp (-2)) := by
  unfold gaussZ
  rw [gaussTail_half, icc_neg_one_one]
  rw [Finset.sum_insert (by decide), Finset.sum_insert (by decide),
    Finset.sum_singleton]
  norm_num

theorem gaussZ_half_gt_one : 1 < gaussZ (1 / 2) := by
  rw [gaussZ_half]
  have h := Real.exp_pos (-2)
  linarith

theorem gaussian_1d_half_zero : gaussian_1d (1 / 2) 0 = 1 / gaussZ (1 / 2) := by
  unfold gaussian_1d
  rw [gaussTail_half]
  rw [if_pos (by decide)]
  norm_num

theorem interpAxes_nil {α : Type} [LinearOrderedField α] [FloorRing α]
    (f : List ℤ → α) (c : List ℤ) : interpAxes [] [] f c = f c :=
  rfl

theorem interp3_exact {α : Type} [LinearOrderedField α] [FloorRing α]
    (g : List ℤ → α) : interpAxes [3] [3] g [1] = g [1] := by
  rw [interpAxes]
  have hpos : (if (3 : ℕ) ≤ 1 then (0 : α)
      else ((1 : ℤ) : α) * (((3 : ℕ) : α) - 1) / (((3 : ℕ) : α) - 1)) = 1 := by
    norm_num
  rw [hpos]
  have hfloor : ⌊(1 : α)⌋ = 1 := Int.floor_one
  rw [hfloor]
  have hw : (1 : α) - ((1 : ℤ) : α) = 0 := by norm_num
  rw [hw]
  rw [interpAxes_nil, interpAxes_nil]
  ring

theorem interp33_center {α : Type} [LinearOrderedField α] [FloorRing α]
    (g : List ℤ → α) : interpAxes [3, 3] [3, 3] g [1, 1] = g [1, 1] := by
  rw [interpAxes]
  have hpos : (if (3 : ℕ) ≤ 1 then (0 : α)
      else ((1 : ℤ) : α) * (((3 : ℕ) : α) - 1) / (((3 : ℕ) : α) - 1)) = 1 := by
    norm_num
  rw [hpos]
  have hfloor : ⌊(1 : α)⌋ = 1 := Int.floor_one
  rw [hfloor]
  have hw : (1 : α) - ((1 : ℤ) : α) = 0 := by norm_num
  rw [hw]
  rw [interp3_exact, interp3_exact]
  ring

theorem sigmaList_33 : sigmaList [3, 3] [3, 3] = [1 / 2, 1 / 2] := by
  simp [sigmaList]

/-- The separable Gaussian smoothing of the cast impulse, evaluated at the
location of the impulse itself: the product of the two centre kernel weights. -/
theorem smoothed_impulse_center :
    separable_filtering [1 / 2, 1 / 2]
        (fun c => ((impulseImage.data 0 0 c : ℚ) : ℝ)) [1, 1] =
      gaussian_1d (1 / 2) 0 * gaussian_1d (1 / 2) 0 := by
  rw [separable_filtering]
  dsimp only
  rw [gaussTail_half, icc_neg_one_one]
  have hinner : ∀ d : ℤ,
      separable_filtering [1 / 2]
          (fun is => ((impulseImage.data 0 0 ((1 - d) :: is) : ℚ) : ℝ)) [1] =
        if d = 0 then gaussian_1d (1 / 2) 0 else 0 := by
    intro d
    rw [separable_filtering]
    dsimp only
    rw [gaussTail_half, icc_neg_one_one]
    rw [Finset.sum_insert (by decide), Finset.sum_insert (by decide),
      Finset.sum_singleton]
    show gaussian_1d (1 / 2) (-1) *
        ((impulseImage.data 0 0 [1 - d, 1 - (-1)] : ℚ) : ℝ) +
      (gaussian_1d (1 / 2) 0 *
        ((impulseImage.data 0 0 [1 - d, 1 - 0] : ℚ) : ℝ) +
      gaussian_1d (1 / 2) 1 *
        ((impulseImage.data 0 0 [1 - d, 1 - 1] : ℚ) : ℝ)) = _
    by_cases hd : d = 0
    · subst hd
      rw [if_pos rfl]
      have h1 : (impulseImage.data 0 0 [1 - 0, 1 - (-1)] : ℚ) = 0 := by decide
      have h2 : (impulseImage.data 0 0 [1 - 0, 1 - 0] : ℚ) = 1 := by decide
      have h3 : (impulseImage.data 0 0 [1 - 0, 1 - 1] : ℚ) = 0 := by decide
      rw [h1, h2, h3]
      push_cast
      ring
    · rw [if_neg hd]
      have h1 : (impulseImage.data 0 0 [1 - d, 1 - (-1)] : ℚ) = 0 := by
        unfold impulseImage
        dsimp only
        rw [if_neg]
        intro hc
        have := List.head_eq_of_cons_eq hc
        omega
      have h2 : (impulseImage.data 0 0 [1 - d, 1 - 0] : ℚ) = 0 := by
        unfold impulseImage
        dsimp only
        rw [if_neg]
        intro hc
        have := List.head_eq_of_cons_eq hc
        omega
      have h3 : (impulseImage.data 0 0 [1 - d, 1 - 1] : ℚ) = 0 := by
        unfold impulseImage
        dsimp only
        rw [if_neg]
        intro hc
        have := List.head_eq_of_cons_eq hc
        omega
      rw [h1, h2, h3]
      push_cast
      ring
  rw [Finset.sum_insert (by decide), Finset.sum_insert (by decide),
    Finset.sum_singleton]
  rw [show ((1 : ℤ) - -1) = 1 - (-1) from rfl]
  rw [hinner (-1), hinner 0, hinner 1]
  norm_num

/-- The anti-aliased downsample of the impulse at the centre output sample is
the squared centre weight of the Gaussian kernel, which is strictly below 1. -/
theorem downsample_impulse_center_lt_one :
    downsample [3, 3] [3, 3] (fun c => ((impulseImage.data 0 0 c : ℚ) : ℝ)) [1, 1] < 1 := by
  unfold downsample
  rw [sigmaList_33, interp33_center, smoothed_impulse_center, gaussian_1d_half_zero]
  have hZ := gaussZ_half_gt_one
  have hZpos : (0 : ℝ) < gaussZ (1 / 2) := by linarith
  have hlt : 1 / gaussZ (1 / 2) < 1 := by
    rw [div_lt_one hZpos]
    exact hZ
  have hnonneg : 0 < 1 / gaussZ (1 / 2) := by positivity
  nlinarith

theorem scaleFixedImageDown_impulse_center :
    (scaleFixedImageDown 1 1 impulseImage).data 0 0 [1, 1] = 1 := by
  show interpAxes [3, 3] (sizeDown 1 1 [3, 3]) (impulseImage.data 0 0) [1, 1] = 1
  rw [show sizeDown 1 1 [3, 3] = [3, 3] from by decide]
  rw [interp33_center]
  norm_num [impulseImage]

/-- C3 counterexample: the claim, applied to the concrete 3×3 impulse fixed
image with `scale = 1` and `MIN_IMG_SIZE = 1` (the value of the global is a free
parameter, as it is not under `src/`), asserts that the per-scale fixed
image equals the anti-aliased Gaussian-smoothed downsample to the same
target size.  At the centre output sample the image of the loop (plain
corner-aligned interpolation, affine.py line 65) has value 1 while the
smoothed pipeline (imageutils `downsample`) has value strictly below 1. -/
theorem c3_loop_image_not_smoothed_counterexample :
    ¬ (∀ coords : List ℤ,
        (((scaleFixedImageDown 1 1 impulseImage).data 0 0 coords : ℚ) : ℝ) =
          downsample impulseImage.spatial
            (sizeDown 1 1 impulseImage.spatial)
            (fun c => ((impulseImage.data 0 0 c : ℚ) : ℝ)) coords) := by
  intro h
  have hcenter := h [1, 1]
  rw [scaleFixedImageDown_impulse_center] at hcenter
  have hsize : sizeDown 1 1 impulseImage.spatial = [3, 3] := by decide
  rw [hsize] at hcenter
  have hlt := downsample_impulse_center_lt_one
  rw [show impulseImage.spatial = [3, 3] from rfl] at hcenter
  rw [← hcenter] at hlt
  norm_num at hlt

/-- C3 (amended): at the start of every scale the registration loop builds
the downsampled fixed image by corner-aligned linear interpolation of the
full-resolution fixed image alone (`F.interpolate`, affine.py line 65) — no
Gaussian pre-smoothing is applied; the anti-aliased `downsample` utility of
imageutils exists but is not invoked there, and on the concrete impulse
image its output differs from the image the loop builds. -/
theorem c3_scale_init_interpolation_alone :
    (∀ (minSize scale : ℕ) (img : ImageTensor) (b c : ℕ) (coords : List ℤ),
      (scaleFixedImageDown minSize scale img).data b c coords =
        interpAxes img.spatial (sizeDown minSize scale img.spatial)
          (img.data b c) coords) ∧
    (((scaleFixedImageDown 1 1 impulseImage).data 0 0 [1, 1] : ℚ) : ℝ) ≠
      downsample [3, 3] [3, 3]
        (fun c => ((impulseImage.data 0 0 c : ℚ) : ℝ)) [1, 1] := by
  constructor
  · intro minSize scale img b c coords
    rfl
  · rw [scaleFixedImageDown_impulse_center]
    have hlt := downsample_impulse_center_lt_one
    intro heq
    rw [← heq] at hlt
    norm_num at hlt

/-! ## Scaling and squaring (imageutils.py lines 156-179)

`F.grid_sample(input, grid, align_corners=True)` (external PyTorch
capability, with the default zeros padding mode) is embedded as bilinear /
trilinear sampling: a normalized coordinate `c ∈ [-1, 1]` on an axis of size
`n` is unnormalized to `(c + 1) * (n - 1) / 2`, the surrounding integer
samples are read with zero padding outside the image, and blended by the
fractional weights.  The last dimension of the grid holds coordinates in the
order `(x, y[, z])` with `x` indexing the innermost (width) axis.

A 2-d velocity field `[B, H, W, 2]` is `ℕ → ℤ → ℤ → Fin 2 → ℚ`
(batch, y, x, component); a 3-d field `[B, D, H, W, 3]` adds a `z`
coordinate.  The `permute` calls of the source move components into a channel
axis before sampling and back afterwards; in this embedding they are the
visible reorderings of the function arguments. -/

/-- Zero-padded pixel read (zeros padding mode), two-dimensional. -/
def pix2 (H W : ℕ) (f : ℤ → ℤ → ℚ) (y x : ℤ) : ℚ :=
  if 0 ≤ y ∧ y < (H : ℤ) ∧ 0 ≤ x ∧ x < (W : ℤ) then f y x else 0

/-- Zero-padded voxel read (zeros padding mode), three-dimensional. -/
def pix3 (D H W : ℕ) (f : ℤ → ℤ → ℤ → ℚ) (z y x : ℤ) : ℚ :=
  if 0 ≤ z ∧ z < (D : ℤ) ∧ 0 ≤ y ∧ y < (H : ℤ) ∧ 0 ≤ x ∧ x < (W : ℤ) then
    f z y x
  else 0

/-- Corner-aligned unnormalization from `[-1, 1]` to `[0, n-1]`. -/
def unnormalize (n : ℕ) (c : ℚ) : ℚ :=
  (c + 1) * ((n : ℚ) - 1) / 2

/-- One bilinear `grid_sample` read of a single channel at normalized
coordinates `(cx, cy)`. -/
def bilinearSample (H W : ℕ) (f : ℤ → ℤ → ℚ) (cx cy : ℚ) : ℚ :=
  let x := unnormalize W cx
  let y := unnormalize H cy
  let x0 := ⌊x⌋
  let y0 := ⌊y⌋
  let wx := x - (x0 : ℚ)
  let wy := y - (y0 : ℚ)
  (1 - wy) * ((1 - wx) * pix2 H W f y0 x0 + wx * pix2 H W f y0 (x0 + 1)) +
    wy * ((1 - wx) * pix2 H W f (y0 + 1) x0 + wx * pix2 H W f (y0 + 1) (x0 + 1))

/-- One trilinear `grid_sample` read of a single channel at normalized
coordinates `(cx, cy, cz)`. -/
def trilinearSample (D H W : ℕ) (f : ℤ → ℤ → ℤ → ℚ) (cx cy cz : ℚ) : ℚ :=
  let x := unnormalize W cx
  let y := unnormalize H cy
  let z := unnormalize D cz
  let x0 := ⌊x⌋
  let y0 := ⌊y⌋
  let z0 := ⌊z⌋
  let wx := x - (x0 : ℚ)
  let wy := y - (y0 : ℚ)
  let wz := z - (z0 : ℚ)
  (1 - wz) *
      ((1 - wy) * ((1 - wx) * pix3 D H W f z0 y0 x0 + wx * pix3 D H W f z0 y0 (x0 + 1)) +
        wy * ((1 - wx) * pix3 D H W f z0 (y0 + 1) x0 + wx * pix3 D H W f z0 (y0 + 1) (x0 + 1))) +
    wz *
      ((1 - wy) * ((1 - wx) * pix3 D H W f (z0 + 1) y0 x0 + wx * pix3 D H W f (z0 + 1) y0 (x0 + 1)) +
        wy * ((1 - wx) * pix3 D H W f (z0 + 1) (y0 + 1) x0 + wx * pix3 D H W f (z0 + 1) (y0 + 1) (x0 + 1)))

/-- A batched 2-d vector field `[B, H, W, 2]`. -/
def Vec2Field : Type :=
  ℕ → ℤ → ℤ → Fin 2 → ℚ

/-- A batched 3-d vector field `[B, D, H, W, 3]`. -/
def Vec3Field : Type :=
  ℕ → ℤ → ℤ → ℤ → Fin 3 → ℚ

/-- Planar `F.grid_sample` over a channels-first image `[B, 2, H, W]`. -/
def gridSample2 (H W : ℕ) (img : ℕ → Fin 2 → ℤ → ℤ → ℚ) (coords : Vec2Field) :
    ℕ → Fin 2 → ℤ → ℤ → ℚ :=
  fun b ch y x => bilinearSample H W (img b ch) (coords b y x 0) (coords b y x 1)

/-- Volumetric `F.grid_sample` over a channels-first volume `[B, 3, D, H, W]`. -/
def gridSample3 (D H W : ℕ) (img : ℕ → Fin 3 → ℤ → ℤ → ℤ → ℚ)
    (coords : Vec3Field) : ℕ → Fin 3 → ℤ → ℤ → ℤ → ℚ :=
  fun b ch z y x =>
    trilinearSample D H W (img b ch) (coords b z y x 0) (coords b z y x 1)
      (coords b z y x 2)

/-- Line 171: one squaring step of the 2-d branch —
`v = v + F.grid_sample(vimg, v + grid, align_corners=True)` with `vimg` the
field permuted channels-first and the result permuted back. -/
def sas2Step (H W : ℕ) (grid : Vec2Field) (v : Vec2Field) : Vec2Field :=
  fun b y x ch =>
    v b y x ch +
      gridSample2 H W (fun b2 ch2 y2 x2 => v b2 y2 x2 ch2)
        (fun b2 y2 x2 ch2 => v b2 y2 x2 ch2 + grid b2 y2 x2 ch2) b ch y x

/-- Line 176 analogue: one squaring step of the 3-d branch. -/
def sas3Step (D H W : ℕ) (grid : Vec3Field) (v : Vec3Field) : Vec3Field :=
  fun b z y x ch =>
    v b z y x ch +
      gridSample3 D H W (fun b2 ch2 z2 y2 x2 => v b2 z2 y2 x2 ch2)
        (fun b2 z2 y2 x2 ch2 => v b2 z2 y2 x2 ch2 + grid b2 z2 y2 x2 ch2) b ch z y x

/-- Lines 172-176: `scaling_and_squaring` for a 2-d field — initialize
`v = u / 2^n`, then apply the squaring step `n` times. -/
def scaling_and_squaring2 (H W : ℕ) (u grid : Vec2Field) (n : ℕ) : Vec2Field :=
  (sas2Step H W grid)^[n] (fun b y x ch => (1 / 2 ^ n : ℚ) * u b y x ch)

/-- Lines 167-171: `scaling_and_squaring` for a 3-d field. -/
def scaling_and_squaring3 (D H W : ℕ) (u grid : Vec3Field) (n : ℕ) : Vec3Field :=
  (sas3Step D H W grid)^[n] (fun b z y x ch => (1 / 2 ^ n : ℚ) * u b z y x ch)

theorem bilinearSample_zero (H W : ℕ) (cx cy : ℚ) :
    bilinearSample H W (fun _ _ => 0) cx cy = 0 := by
  simp [bilinearSample, pix2]

theorem trilinearSample_zero (D H W : ℕ) (cx cy cz : ℚ) :
    trilinearSample D H W (fun _ _ _ => 0) cx cy cz = 0 := by
  simp [trilinearSample, pix3]

/-- C8: for the all-zero velocity field, every sampling grid of matching
shape (in particular the identity grid), every squaring-step count `n`, and
both supported dimensionalities, `scaling_and_squaring` returns the all-zero
displacement field. -/
theorem c8_scaling_and_squaring_zero :
    (∀ (H W : ℕ) (grid : Vec2Field) (n b : ℕ) (y x : ℤ) (ch : Fin 2),
      scaling_and_squaring2 H W (fun _ _ _ _ => 0) grid n b y x ch = 0) ∧
    (∀ (D H W : ℕ) (grid : Vec3Field) (n b : ℕ) (z y x : ℤ) (ch : Fin 3),
      scaling_and_squaring3 D H W (fun _ _ _ _ _ => 0) grid n b z y x ch = 0) := by
  constructor
  · intro H W grid n b y x ch
    have hfix : sas2Step H W grid (fun _ _ _ _ => 0) = (fun _ _ _ _ => 0) := by
      funext b2 y2 x2 ch2
      simp [sas2Step, gridSample2, bilinearSample_zero]
    have hinit : (fun (b2 : ℕ) (y2 x2 : ℤ) (ch2 : Fin 2) =>
        (1 / 2 ^ n : ℚ) * (fun (_ : ℕ) (_ _ : ℤ) (_ : Fin 2) => (0 : ℚ)) b2 y2 x2 ch2) =
        (fun (_ : ℕ) (_ _ : ℤ) (_ : Fin 2) => (0 : ℚ)) := by
      funext b2 y2 x2 ch2
      simp
    unfold scaling_and_squaring2
    rw [hinit, Function.iterate_fixed hfix n]
  · intro D H W grid n b z y x ch
    have hfix : sas3Step D H W grid (fun _ _ _ _ _ => 0) = (fun _ _ _ _ _ => 0) := by
      funext b2 z2 y2 x2 ch2
      simp [sas3Step, gridSample3, trilinearSample_zero]
    have hinit : (fun (b2 : ℕ) (z2 y2 x2 : ℤ) (ch2 : Fin 3) =>
        (1 / 2 ^ n : ℚ) * (fun (_ : ℕ) (_ _ _ : ℤ) (_ : Fin 3) => (0 : ℚ)) b2 z2 y2 x2 ch2) =
        (fun (_ : ℕ) (_ _ _ : ℤ) (_ : Fin 3) => (0 : ℚ)) := by
      funext b2 z2 y2 x2 ch2
      simp
    unfold scaling_and_squaring3
    rw [hinit, Function.iterate_fixed hfix n]

/-! ## Image gradient (imageutils.py lines 181-216)

The central-difference kernel `[-1, 0, 1]` is applied by (cross-)correlation
with zero padding sized to preserve the spatial shape: along an axis,
`out[x] = in[x + 1] - in[x - 1]` with out-of-range reads contributing 0. -/

/-- Errors raised by the gradient estimator: `NotImplementedError` for
multichannel input (line 216), `ValueError` for an unsupported spatial
dimensionality (line 206). -/
inductive ImageErr where
  | multichannelUnsupported
  | invalidDimension
  deriving DecidableEq, Repr

/-- Lines 181-207: `image_gradient_singlechannel` — channel `0` holds the
gradient along the innermost (x / width) axis, channel `1` along y, and
channel `2` along z for volumes, concatenated in that order; any spatial
rank other than 2 or 3 raises `ValueError`. -/
def image_gradient_singlechannel (t : ImageTensor) : Except ImageErr ImageTensor :=
  match t.spatial with
  | [H, W] =>
      .ok
        { B := t.B
          C := 2
          spatial := [H, W]
          data := fun b c coords =>
            match coords with
            | [y, x] =>
                let pix := fun (y2 x2 : ℤ) =>
                  if 0 ≤ y2 ∧ y2 < (H : ℤ) ∧ 0 ≤ x2 ∧ x2 < (W : ℤ) then
                    t.data b 0 [y2, x2]
                  else 0
                if c = 0 then pix y (x + 1) - pix y (x - 1)
                else pix (y + 1) x - pix (y - 1) x
            | _ => 0 }
  | [D, H, W] =>
      .ok
        { B := t.B
          C := 3
          spatial := [D, H, W]
          data := fun b c coords =>
            match coords with
            | [z, y, x] =>
                let pix := fun (z2 y2 x2 : ℤ) =>
                  if 0 ≤ z2 ∧ z2 < (D : ℤ) ∧ 0 ≤ y2 ∧ y2 < (H : ℤ) ∧
                      0 ≤ x2 ∧ x2 < (W : ℤ) then
                    t.data b 0 [z2, y2, x2]
                  else 0
                if c = 0 then pix z y (x + 1) - pix z y (x - 1)
                else if c = 1 then pix z (y + 1) x - pix z (y - 1) x
                else pix (z + 1) y x - pix (z - 1) y x
            | _ => 0 }
  | _ => .error .invalidDimension

/-- Lines 210-216: `image_gradient` — dispatch on the channel count; any
channel count other than 1 raises `NotImplementedError`. -/
def image_gradient (t : ImageTensor) : Except ImageErr ImageTensor :=
  if t.C = 1 then image_gradient_singlechannel t
  else .error .multichannelUnsupported

/-- C9: `image_gradient` fails with the unsupported-feature error on every
input with more than one channel; on a single-channel 2-d input it returns a
2-channel tensor and on a single-channel 3-d input a 3-channel tensor, in
both cases preserving the batch and the spatial shape; and every other
spatial rank is a domain error. -/
theorem c9_image_gradient_channels :
    (∀ t : ImageTensor, 1 < t.C →
      image_gradient t = .error .multichannelUnsupported) ∧
    (∀ (t : ImageTensor) (H W : ℕ), t.C = 1 → t.spatial = [H, W] →
      ∃ out, image_gradient t = .ok out ∧ out.C = 2 ∧
        out.spatial = [H, W] ∧ out.B = t.B) ∧
    (∀ (t : ImageTensor) (D H W : ℕ), t.C = 1 → t.spatial = [D, H, W] →
      ∃ out, image_gradient t = .ok out ∧ out.C = 3 ∧
        out.spatial = [D, H, W] ∧ out.B = t.B) ∧
    (∀ t : ImageTensor, t.C = 1 → t.spatial.length ≠ 2 → t.spatial.length ≠ 3 →
      image_gradient t = .error .invalidDimension) := by
  refine ⟨?_, ?_, ?_, ?_⟩
  · intro t hC
    unfold image_gradient
    rw [if_neg (by omega)]
  · intro t H W hC hsp
    unfold image_gradient
    rw [if_pos hC]
    unfold image_gradient_singlechannel
    rw [hsp]
    exact ⟨_, rfl, rfl, rfl, rfl⟩
  · intro t D H W hC hsp
    unfold image_gradient
    rw [if_pos hC]
    unfold image_gradient_singlechannel
    rw [hsp]
    exact ⟨_, rfl, rfl, rfl, rfl⟩
  · intro t hC h2 h3
    unfold image_gradient
    rw [if_pos hC]
    unfold image_gradient_singlechannel
    rcases hsp : t.spatial with _ | ⟨a, _ | ⟨b, _ | ⟨c, _ | ⟨d, rest⟩⟩⟩⟩
    · rfl
    · rfl
    · rw [hsp] at h2
      exact absurd rfl h2
    · rw [hsp] at h3
      exact absurd rfl h3
    · rfl

/-- A single-channel 2-d test image. -/
def exImage2 : ImageTensor :=
  { B := 1, C := 1, spatial := [2, 2], data := fun _ _ _ => 0 }

/-- A single-channel 3-d test image. -/
def exImage3 : ImageTensor :=
  { B := 1, C := 1, spatial := [2, 2, 2], data := fun _ _ _ => 0 }

/-- A 2-channel test image. -/
def exImageMC : ImageTensor :=
  { B := 1, C := 2, spatial := [2, 2], data := fun _ _ _ => 0 }

/-- A single-channel rank-1 test image. -/
def exImage1D : ImageTensor :=
  { B := 1, C := 1, spatial := [5], data := fun _ _ _ => 0 }

theorem c9_image_gradient_channels_witness :
    image_gradient exImageMC = .error .multichannelUnsupported ∧
    (∃ out, image_gradient exImage2 = .ok out ∧ out.C = 2 ∧
      out.spatial = [2, 2] ∧ out.B = exImage2.B) ∧
    (∃ out, image_gradient exImage3 = .ok out ∧ out.C = 3 ∧
      out.spatial = [2, 2, 2] ∧ out.B = exImage3.B) ∧
    image_gradient exImage1D = .error .invalidDimension :=
  ⟨c9_image_gradient_channels.1 exImageMC (by decide),
   c9_image_gradient_channels.2.1 exImage2 2 2 rfl rfl,
   c9_image_gradient_channels.2.2.1 exImage3 2 2 2 rfl rfl,
   c9_image_gradient_channels.2.2.2 exImage1D rfl (by decide) (by decide)⟩

end CudAnts
